import Mathlib

/-!
Shallow embedding of the CrownedTrader automated position-lifecycle tracker
(src/signals/auto_tracking.py, src/signals/views.py) and of the
options-contract selection engine (src/signals/polygon_client.py).

Python floats are modelled as exact rationals, Python ints as integers, and
the JSON configuration dict signal.data as a record of the string-valued keys
the tracker reads. Python round is round-half-to-even, modelled by
roundHalfEven. Decimal string parsing models float(s) on plain decimal
literals (optional sign, digits, optional fractional part); exotic literal
forms (exponents, underscores, inf, nan) are outside the model, as are the
Discord embed texts, which carry no position state.
-/

/-- Python truthiness default on an integer field: the expression x or d,
where 0 is falsy. -/
def pyOr (x d : ℤ) : ℤ :=
  if x = 0 then d else x

/-- Python x or d on an optional integer (None and 0 are falsy). -/
def pyOrOptZ (x : Option ℤ) (d : ℤ) : ℤ :=
  match x with
  | none => d
  | some v => if v = 0 then d else v

/-- Python x or d on an optional rational (None and 0.0 are falsy). -/
def pyOrOptQ (x : Option ℚ) (d : ℚ) : ℚ :=
  match x with
  | none => d
  | some v => if v = 0 then d else v

/-- Python round(x) to the nearest integer, ties to even. -/
def roundHalfEven (q : ℚ) : ℤ :=
  let f := ⌊q⌋
  let r := q - (f : ℚ)
  if r < 1/2 then f
  else if 1/2 < r then f + 1
  else if f % 2 = 0 then f else f + 1

/-- Python round(x, 2), applied by the exit processor to realized P&L. -/
def round2 (q : ℚ) : ℚ :=
  (roundHalfEven (q * 100) : ℚ) / 100

/-- Numeric value of a digit list, most significant digit first. -/
def natOfDigits (l : List Char) : ℕ :=
  l.foldl (fun a c => 10 * a + (c.toNat - 48)) 0

/-- Python str.strip() on the character list of a string. -/
def trimChars (l : List Char) : List Char :=
  ((l.dropWhile Char.isWhitespace).reverse.dropWhile Char.isWhitespace).reverse

/-- Python s.replace("%", ""): every percent sign removed. -/
def dropPct (l : List Char) : List Char :=
  l.filter (fun c => c ≠ '%')

/-- Python s.lower() on the character list of a string. -/
def lowerChars (l : List Char) : List Char :=
  l.map Char.toLower

/-- Python s.startswith("tp"). -/
def startsTp : List Char → Bool
  | 't' :: 'p' :: _ => true
  | _ => false

/-- Python s.replace("tp", ""): left-to-right removal of every occurrence. -/
def dropTp : List Char → List Char
  | 't' :: 'p' :: rest => dropTp rest
  | c :: rest => c :: dropTp rest
  | [] => []

/-- Unsigned decimal literal: digits with an optional fractional part. -/
def parseUnsigned? (l : List Char) : Option ℚ :=
  let ip := l.takeWhile Char.isDigit
  let rest := l.dropWhile Char.isDigit
  match rest with
  | [] => if ip.isEmpty then none else some (natOfDigits ip : ℚ)
  | '.' :: fp =>
      if fp.all Char.isDigit && !(ip.isEmpty && fp.isEmpty) then
        some ((natOfDigits ip : ℚ) + (natOfDigits fp : ℚ) / ((10 : ℚ) ^ fp.length))
      else none
  | _ => none

/-- Python float(s) on a stripped string: optional sign then a decimal literal. -/
def parseFloatChars (l : List Char) : Option ℚ :=
  match l with
  | '-' :: rest => (parseUnsigned? rest).map (fun q => -q)
  | '+' :: rest => parseUnsigned? rest
  | l => parseUnsigned? l

/-- Python int(s): optional sign then one or more digits. -/
def parseIntChars (l : List Char) : Option ℤ :=
  match l with
  | '-' :: rest =>
      if !rest.isEmpty && rest.all Char.isDigit then some (-(natOfDigits rest : ℤ)) else none
  | '+' :: rest =>
      if !rest.isEmpty && rest.all Char.isDigit then some ((natOfDigits rest : ℤ)) else none
  | l => if !l.isEmpty && l.all Char.isDigit then some ((natOfDigits l : ℤ)) else none

/-- The tracker numeric parser _to_float (auto_tracking.py lines 15-20):
str(v or "").strip().replace("%", "") then float, with blanks and parse
failures coerced to 0.0. -/
def toFloat (v : Option String) : ℚ :=
  let s := dropPct (trimChars (v.getD "").toList)
  if s = [] then 0 else (parseFloatChars s).getD 0

/-- Position.status values; opened stands for the stored value "open". -/
inductive PStatus where
  | opened
  | closed
deriving DecidableEq

/-- The Position fields read and written by the tracker and the exit processor
(src/signals/models.py). Money fields are exact rationals, closed_at an
abstract timestamp; fields not touched by the core (symbol, mode, contract
metadata) are omitted. -/
structure PositionState where
  status : PStatus
  tp_hit_level : ℕ
  sl_hit : Bool
  closed_units : ℤ
  realized_pnl : ℚ
  quantity : ℤ
  multiplier : ℤ
  entry_price : Option ℚ
  exit_price : Option ℚ
  highest_price : Option ℚ
  closed_at : Option ℕ
deriving DecidableEq

/-- The signal.data JSON keys read by the tracker and the exit processor, each
an optional string, the result of dict.get; tpPrice n models
data.get of the key tp{n}_price, and similarly for the other fields. -/
structure SignalData where
  sl_price : Option String
  tpPrice : ℕ → Option String
  tpTakeoffPer : ℕ → Option String
  trailing_stop_trigger : Option String
  trailing_stop_per : Option String

/-- Display units: (pos.quantity or 1) * (pos.multiplier or 100)
(views.py line 2487). -/
def totalUnits (pos : PositionState) : ℤ :=
  pyOr pos.quantity 1 * pyOr pos.multiplier 100

/-- Remaining units: max(0, total_units - closed_units) (views.py line 2489). -/
def remainingUnits (pos : PositionState) : ℤ :=
  max 0 (totalUnits pos - pos.closed_units)

/-- Takeoff percent for level n (views.py lines 2480-2486): the value of key
tp{n}_takeoff_per, defaulting to 50.0 when the key is absent, blank after
strip, or fails to parse. -/
def takeoffPct (data : SignalData) (n : ℕ) : ℚ :=
  match data.tpTakeoffPer n with
  | none => 50
  | some raw =>
      let s0 := trimChars raw.toList
      if s0 = [] then 50 else (parseFloatChars (dropPct s0)).getD 50

/-- Units closed by a TP exit: int(round(remaining * takeoff_pct / 100.0))
(views.py line 2490). -/
def unitsToClose (pos : PositionState) (data : SignalData) : ℤ :=
  roundHalfEven ((remainingUnits pos : ℚ) * takeoffPct data (pos.tp_hit_level + 1) / 100)

/-- TP price for level n (views.py lines 2492-2498): float of the stripped
value at key tp{n}_price, None when absent or unparsable. -/
def tpPriceAt (data : SignalData) (n : ℕ) : Option ℚ :=
  match data.tpPrice n with
  | none => none
  | some raw => parseFloatChars (trimChars raw.toList)

/-- The take-profit branch of _apply_position_exit (views.py lines 2477-2518). -/
def applyTpExit (pos : PositionState) (data : SignalData) (now : ℕ) : PositionState :=
  let nextTp := pos.tp_hit_level + 1
  let addUnits := unitsToClose pos data
  let closedU := pos.closed_units + addUnits
  let tpP := tpPriceAt data nextTp
  let entry := pos.entry_price.getD 0
  let realized :=
    if tpP.isSome ∧ entry ≠ 0 ∧ 0 < addUnits then
      round2 (pos.realized_pnl + (tpP.getD 0 - entry) * (addUnits : ℚ))
    else pos.realized_pnl
  if totalUnits pos ≤ closedU then
    { pos with
      tp_hit_level := nextTp
      closed_units := closedU
      realized_pnl := realized
      status := .closed
      closed_at := some now
      exit_price := (match tpP with | some p => some p | none => pos.entry_price) }
  else
    { pos with
      tp_hit_level := nextTp
      closed_units := closedU
      realized_pnl := realized }

/-- The stop-loss branch of _apply_position_exit (views.py lines 2519-2524). -/
def applySlExit (pos : PositionState) (now : ℕ) : PositionState :=
  { pos with
    sl_hit := true
    status := .closed
    exit_price := pos.entry_price
    closed_at := some now }

inductive ExitKind where
  | tp
  | sl
deriving DecidableEq

/-- Result of _apply_position_exit: the returned boolean, the position state
afterwards, and how many Discord embed deliveries were attempted and
delivered. -/
structure ExitOutcome where
  success : Bool
  state : PositionState
  sendsAttempted : ℕ
  sendsDelivered : ℕ
deriving DecidableEq

/-- _apply_position_exit (views.py lines 2440-2525). urlPresent models whether
a webhook URL resolves for the position (active signal channel, else a user
default or any active channel); sendOk models _send_discord_embed succeeding.
When a URL resolves and the send fails the function returns False before any
field is mutated; when no URL resolves, no send is attempted and the mutation
proceeds. -/
def applyPositionExit (pos : PositionState) (kind : ExitKind) (data : SignalData)
    (urlPresent sendOk : Bool) (now : ℕ) : ExitOutcome :=
  let attempted : ℕ := if urlPresent then 1 else 0
  let delivered : ℕ := if urlPresent ∧ sendOk then 1 else 0
  if urlPresent ∧ ¬ sendOk then
    ⟨false, pos, attempted, delivered⟩
  else
    match kind with
    | .tp => ⟨true, applyTpExit pos data now, attempted, delivered⟩
    | .sl => ⟨true, applySlExit pos now, attempted, delivered⟩

/-- Trailing stop trigger string (auto_tracking.py line 54):
str(data.get("trailing_stop_trigger", "")).strip().lower(). -/
def trailingTriggerStr (data : SignalData) : List Char :=
  lowerChars (trimChars (data.trailing_stop_trigger.getD "").toList)

/-- Whether the trailing stop is configured and currently active
(auto_tracking.py lines 54-72): trigger nonblank and not "none", positive
trailing percent, and either trigger "entry" or trigger "tp{n}" with
tp_hit_level at least n; an unparsable "tp..." trigger or any other trigger
string leaves it inactive. -/
def trailingActive (pos : PositionState) (data : SignalData) : Bool :=
  let trig := trailingTriggerStr data
  let per := toFloat data.trailing_stop_per
  if trig ≠ [] ∧ trig ≠ "none".toList ∧ 0 < per then
    if trig = "entry".toList then true
    else if startsTp trig then
      match parseIntChars (dropTp trig) with
      | some lvl => decide (lvl ≤ (pos.tp_hit_level : ℤ))
      | none => false
    else false
  else false

/-- In-memory peak used for the trailing floor (auto_tracking.py lines 77-79):
the stored peak raised to the current price when exceeded, or the current
price when no peak is stored. -/
def effHighest (pos : PositionState) (c : ℚ) : ℚ :=
  match pos.highest_price with
  | some h => if h < c then c else h
  | none => c

/-- Peak persistence (auto_tracking.py lines 78-83): highest_price is saved
only when the current price strictly exceeds the in-memory peak, which never
happens while the stored field is NULL. -/
def persistPeak (pos : PositionState) (c : ℚ) : PositionState :=
  match pos.highest_price with
  | some h => if h < c then { pos with highest_price := some c } else pos
  | none => pos

/-- What the per-position body of run_auto_tracking_check did on one tick. -/
inductive TickAction where
  | noQuote
  | trailingFired
  | trailingAborted
  | trailingNotifyFailed
  | slFired
  | slAborted
  | slNotifyFailed
  | tpFired (level : ℕ)
  | tpAborted
  | tpNotifyFailed
  | noAction
deriving DecidableEq

/-- One pass of run_auto_tracking_check over a single open auto-mode position
with dry_run False (auto_tracking.py lines 34-159). price? is the quote from
_get_position_current_price. refresh maps the state the tick has produced so
far to the state read by refresh_from_db inside the exit transaction, so a
concurrent writer is modelled by an arbitrary refresh function and the
single-writer case by the identity. The returned state is the database state
after the tick. -/
def autoTickGen (pos : PositionState) (data : SignalData) (price? : Option ℚ)
    (refresh : PositionState → PositionState) (urlPresent sendOk : Bool) (now : ℕ) :
    TickAction × PositionState :=
  let slPrice := toFloat data.sl_price
  let nextTp := pos.tp_hit_level + 1
  let nextTpPrice := toFloat (data.tpPrice nextTp)
  match price? with
  | none => (.noQuote, pos)
  | some c =>
    let act := trailingActive pos data
    let per := toFloat data.trailing_stop_per
    let pos1 := if act then persistPeak pos c else pos
    if act ∧ c ≤ effHighest pos c * (1 - per / 100) then
      let r := refresh pos1
      if r.status ≠ .opened then (.trailingAborted, r)
      else
        let out := applyPositionExit r .sl data urlPresent sendOk now
        (if out.success then .trailingFired else .trailingNotifyFailed, out.state)
    else if 0 < slPrice ∧ c ≤ slPrice then
      let r := refresh pos1
      if r.status ≠ .opened then (.slAborted, r)
      else
        let out := applyPositionExit r .sl data urlPresent sendOk now
        (if out.success then .slFired else .slNotifyFailed, out.state)
    else if 0 < nextTpPrice ∧ nextTpPrice ≤ c then
      let r := refresh pos1
      if r.status ≠ .opened then (.tpAborted, r)
      else
        let out := applyPositionExit r .tp data urlPresent sendOk now
        (if out.success then .tpFired nextTp else .tpNotifyFailed, out.state)
    else (.noAction, pos1)

/-- The single-writer tick: refresh_from_db re-reads exactly the state this
tick has written so far. -/
def autoTickSeq (pos : PositionState) (data : SignalData) (price? : Option ℚ)
    (urlPresent sendOk : Bool) (now : ℕ) : TickAction × PositionState :=
  autoTickGen pos data price? id urlPresent sendOk now

/-- Environment of one tick for one position: the quote, whether a webhook URL
resolves, whether the Discord send succeeds, and the clock. -/
structure TickInput where
  price? : Option ℚ
  urlPresent : Bool
  sendOk : Bool
  now : ℕ

/-- A sequence of single-writer ticks over one position. -/
def runTicks (data : SignalData) : PositionState → List TickInput → PositionState
  | pos, [] => pos
  | pos, i :: rest =>
      runTicks data (autoTickSeq pos data i.price? i.urlPresent i.sendOk i.now).2 rest

/-- A normalized option-chain candidate, the output of _norm inside
pick_best_option_from_snapshots (polygon_client.py lines 667-721); every row
that survives normalization has a contract, an expiration date and a strike,
so strike is total here. bid, ask and the derived option price are not read
by the level filters or the ranking keys and are omitted. -/
structure OptionRow where
  contract : String
  strike : ℚ
  delta : Option ℚ
  open_interest : Option ℤ
  spread : Option ℚ
  dte : Option ℤ
deriving DecidableEq

structure ScalpLevel where
  dteLo : ℤ
  dteHi : ℤ
  deltaLo : ℚ
  deltaHi : ℚ
  minOI : ℤ
  maxSpread : ℚ

/-- Scalp fallback levels (polygon_client.py lines 757-782). -/
def scalpLevels : List ScalpLevel :=
  [ ⟨0, 0, 35/100, 60/100, 500, 10/100⟩
  , ⟨0, 0, 25/100, 65/100, 300, 15/100⟩
  , ⟨0, 1, 25/100, 65/100, 200, 15/100⟩
  , ⟨0, 2, 20/100, 70/100, 100, 20/100⟩ ]

structure SwingLevel where
  dteRanges : List (ℤ × ℤ)
  deltaLo : ℚ
  deltaHi : ℚ
  strikePercent : ℚ
  minOI : ℤ
  maxSpread : ℚ

/-- Swing fallback levels (polygon_client.py lines 826-855). -/
def swingLevels : List SwingLevel :=
  [ ⟨[(13, 25), (6, 15)], 40/100, 60/100, 2/100, 1000, 5/100⟩
  , ⟨[(13, 45), (6, 30)], 40/100, 60/100, 2/100, 500, 8/100⟩
  , ⟨[(13, 60), (6, 45)], 30/100, 70/100, 5/100, 300, 10/100⟩
  , ⟨[(13, 90), (6, 60)], 25/100, 75/100, 8/100, 200, 15/100⟩ ]

structure LeapLevel where
  dteLo : ℤ
  dteHi : ℤ
  deltaLo : ℚ
  deltaHi : ℚ
  strikePercent : ℚ
  minOI : ℤ
  maxSpread : ℚ
  targetDte : ℤ

/-- Leap fallback levels (polygon_client.py lines 913-946). -/
def leapLevels : List LeapLevel :=
  [ ⟨330, 395, 50/100, 80/100, 2/100, 500, 5/100, 365⟩
  , ⟨270, 450, 50/100, 80/100, 2/100, 300, 8/100, 365⟩
  , ⟨180, 500, 40/100, 85/100, 5/100, 200, 10/100, 365⟩
  , ⟨120, 550, 35/100, 90/100, 8/100, 100, 15/100, 365⟩ ]

/-- moneyness_score (polygon_client.py lines 738-742): distance of the strike
offset from a slightly OTM target equal to the level band (positive for
calls, negative for puts), plus a penalty of 0.5 plus the offset once the
absolute offset leaves the band. -/
def moneyness_score (px strike : ℚ) (isCall : Bool) (maxPercent : ℚ) : ℚ :=
  let m := (strike - px) / px
  let target := if isCall then maxPercent else -maxPercent
  |m - target| + (if |m| ≤ maxPercent then 0 else 1/2 + |m|)

/-- strike_in_range (polygon_client.py lines 745-747). -/
def strike_in_range (px strike maxPercent : ℚ) : Bool :=
  decide (|(strike - px) / px| ≤ maxPercent)

/-- Scalp level filter (polygon_client.py lines 789-806). -/
def scalpKeep (L : ScalpLevel) (r : OptionRow) : Bool :=
  match r.dte with
  | none => false
  | some dte =>
    if ¬ (L.dteLo ≤ dte ∧ dte ≤ L.dteHi) then false
    else
      match r.delta with
      | none => false
      | some d =>
        if ¬ (L.deltaLo ≤ |d| ∧ |d| ≤ L.deltaHi) then false
        else if r.open_interest.getD 0 < L.minOI then false
        else
          match r.spread with
          | none => false
          | some spr => decide (spr < L.maxSpread)

/-- Swing level filter (polygon_client.py lines 862-893); the DTE must fall in
one of the level DTE windows, tried in preference order. -/
def swingKeep (px : ℚ) (L : SwingLevel) (r : OptionRow) : Bool :=
  match r.dte with
  | none => false
  | some dte =>
    if ¬ L.dteRanges.any (fun p => decide (p.1 ≤ dte) && decide (dte ≤ p.2)) then false
    else
      match r.delta with
      | none => false
      | some d =>
        if ¬ (L.deltaLo ≤ |d| ∧ |d| ≤ L.deltaHi) then false
        else if ¬ strike_in_range px r.strike L.strikePercent then false
        else if r.open_interest.getD 0 < L.minOI then false
        else
          match r.spread with
          | none => false
          | some spr => decide (spr < L.maxSpread)

/-- Leap level filter (polygon_client.py lines 955-977). -/
def leapKeep (px : ℚ) (L : LeapLevel) (r : OptionRow) : Bool :=
  match r.dte with
  | none => false
  | some dte =>
    if ¬ (L.dteLo ≤ dte ∧ dte ≤ L.dteHi) then false
    else
      match r.delta with
      | none => false
      | some d =>
        if ¬ (L.deltaLo ≤ |d| ∧ |d| ≤ L.deltaHi) then false
        else if ¬ strike_in_range px r.strike L.strikePercent then false
        else if r.open_interest.getD 0 < L.minOI then false
        else
          match r.spread with
          | none => false
          | some spr => decide (spr < L.maxSpread)

/-- Lexicographic ranking key, a quadruple compared left to right as Python
compares the sort key tuples. -/
abbrev Key4 := ℚ × ℚ × ℚ × ℚ

/-- Scalp ranking key (polygon_client.py lines 810-815): distance of the
absolute delta from 0.50, then DTE with Python falsy 0 replaced by 9999,
then spread with falsy 0.0 replaced by 9e9, then negated open interest. -/
def scalpKey (r : OptionRow) : Key4 :=
  (|(|r.delta.getD 0|) - 50/100|, (pyOrOptZ r.dte 9999 : ℚ),
    pyOrOptQ r.spread 9000000000, -((r.open_interest.getD 0 : ℚ)))

/-- Swing ranking key (polygon_client.py lines 897-902): moneyness first, then
DTE, then spread, then negated open interest. -/
def swingKey (px : ℚ) (preferCall : Bool) (strikePercent : ℚ) (r : OptionRow) : Key4 :=
  (moneyness_score px r.strike preferCall strikePercent, (pyOrOptZ r.dte 9999 : ℚ),
    pyOrOptQ r.spread 9000000000, -((r.open_interest.getD 0 : ℚ)))

/-- Leap ranking key (polygon_client.py lines 981-986): distance of DTE from
the 365-day target first, then moneyness, then spread, then negated open
interest. -/
def leapKey (px : ℚ) (preferCall : Bool) (L : LeapLevel) (r : OptionRow) : Key4 :=
  (((|r.dte.getD 0 - L.targetDte| : ℤ) : ℚ),
    moneyness_score px r.strike preferCall L.strikePercent,
    pyOrOptQ r.spread 9000000000, -((r.open_interest.getD 0 : ℚ)))

/-- Strict lexicographic order on ranking keys. -/
def key4Lt (a b : Key4) : Prop :=
  a.1 < b.1 ∨ (a.1 = b.1 ∧ (a.2.1 < b.2.1 ∨ (a.2.1 = b.2.1 ∧
    (a.2.2.1 < b.2.2.1 ∨ (a.2.2.1 = b.2.2.1 ∧ a.2.2.2 < b.2.2.2)))))

instance (a b : Key4) : Decidable (key4Lt a b) := by
  unfold key4Lt; infer_instance

/-- Weak lexicographic order on ranking keys. -/
def key4Le (a b : Key4) : Prop :=
  key4Lt a b ∨ a = b

/-- First minimum of a candidate list under a ranking key: the element that a
stable ascending sort followed by taking index 0 returns. -/
def minBy4 (key : OptionRow → Key4) : OptionRow → List OptionRow → OptionRow
  | best, [] => best
  | best, r :: rest => minBy4 key (if key4Lt (key r) (key best) then r else best) rest

/-- One relaxation level: its filter and its ranking key. -/
structure LevelSpec where
  keep : OptionRow → Bool
  key : OptionRow → Key4

/-- The progressive-fallback loop shared by the scalp, swing and leap branches
(polygon_client.py lines 784-821, 857-908, 948-992): try each level in order
and, on the first level whose filtered set is nonempty, return its best row
together with the fallback level index; with no survivors anywhere, None. -/
def pickLadder (rows : List OptionRow) : List LevelSpec → ℕ → Option (OptionRow × ℕ)
  | [], _ => none
  | spec :: rest, i =>
      match rows.filter spec.keep with
      | [] => pickLadder rows rest (i + 1)
      | r :: rs => some (minBy4 spec.key r rs, i)

inductive TradeType where
  | scalp
  | swing
  | leap
deriving DecidableEq

/-- The four relaxation levels of a horizon with their filters and keys. -/
def specsOf (tt : TradeType) (px : ℚ) (preferCall : Bool) : List LevelSpec :=
  match tt with
  | .scalp => scalpLevels.map (fun L => ⟨scalpKeep L, scalpKey⟩)
  | .swing => swingLevels.map (fun L => ⟨swingKeep px L, swingKey px preferCall L.strikePercent⟩)
  | .leap => leapLevels.map (fun L => ⟨leapKeep px L, leapKey px preferCall L⟩)

/-- pick_best_option_from_snapshots (polygon_client.py lines 644-992) from the
normalized rows onward: the underlying price must be positive, the row list
nonempty, and then the progressive-fallback ladder of the horizon runs. The
JSON snapshot normalization and the trade-type and side string cleanup happen
upstream of this model; side "call" is preferCall true. -/
def pickBestOption (rows : List OptionRow) (px : ℚ) (tt : TradeType)
    (preferCall : Bool) : Option (OptionRow × ℕ) :=
  if px ≤ 0 then none
  else if rows = [] then none
  else pickLadder rows (specsOf tt px preferCall) 0

/-- Junk placeholder used only at out-of-range level indices. -/
def dummySpec : LevelSpec :=
  ⟨fun _ => false, fun _ => (0, 0, 0, 0)⟩

/-- Junk row used only for the best of an empty level. -/
def dummyRow : OptionRow :=
  ⟨"", 0, none, none, none, none⟩

/-- The filtered candidate set of relaxation level k. -/
def levelFiltered (tt : TradeType) (px : ℚ) (preferCall : Bool)
    (rows : List OptionRow) (k : ℕ) : List OptionRow :=
  rows.filter (((specsOf tt px preferCall).getD k dummySpec).keep)

/-- The ranking key of relaxation level k. -/
def levelKey (tt : TradeType) (px : ℚ) (preferCall : Bool) (k : ℕ) :
    OptionRow → Key4 :=
  ((specsOf tt px preferCall).getD k dummySpec).key

/-- Best row of a level: first minimum of its filtered set under its key. -/
def levelBest (tt : TradeType) (px : ℚ) (preferCall : Bool)
    (rows : List OptionRow) (k : ℕ) : OptionRow :=
  match levelFiltered tt px preferCall rows k with
  | [] => dummyRow
  | r :: rs => minBy4 (levelKey tt px preferCall k) r rs

/-- Nested lexicographic packaging of a ranking key. -/
def key4L (a : Key4) : ℚ ×ₗ (ℚ ×ₗ (ℚ ×ₗ ℚ)) :=
  toLex (a.1, toLex (a.2.1, toLex (a.2.2.1, a.2.2.2)))

/-- lemmas layer: order facts about ranking keys. -/
theorem key4L_inj {a b : Key4} (h : key4L a = key4L b) : a = b := by
  unfold key4L at h
  simp only [toLex_inj, Prod.mk.injEq] at h
  obtain ⟨h1, h2, h3, h4⟩ := h
  exact Prod.ext h1 (Prod.ext h2 (Prod.ext h3 h4))

theorem key4Lt_iff (a b : Key4) : key4Lt a b ↔ key4L a < key4L b := by
  unfold key4Lt key4L
  rw [Prod.Lex.lt_iff, Prod.Lex.lt_iff, Prod.Lex.lt_iff]

theorem key4Le_iff (a b : Key4) : key4Le a b ↔ key4L a ≤ key4L b := by
  unfold key4Le
  rw [key4Lt_iff, le_iff_lt_or_eq]
  constructor
  · rintro (h | h)
    · exact Or.inl h
    · exact Or.inr (by rw [h])
  · rintro (h | h)
    · exact Or.inl h
    · exact Or.inr (key4L_inj h)

theorem key4Le_refl (a : Key4) : key4Le a a :=
  (key4Le_iff a a).mpr (le_refl _)

theorem key4Le_trans {a b c : Key4} (h1 : key4Le a b) (h2 : key4Le b c) : key4Le a c := by
  rw [key4Le_iff] at h1 h2 ⊢
  exact le_trans h1 h2

theorem key4Le_of_not_lt {a b : Key4} (h : ¬ key4Lt a b) : key4Le b a := by
  rw [key4Lt_iff] at h
  rw [key4Le_iff]
  exact le_of_not_lt h

theorem key4Le_of_lt {a b : Key4} (h : key4Lt a b) : key4Le a b := by
  rw [key4Lt_iff] at h
  rw [key4Le_iff]
  exact le_of_lt h

theorem minBy4_choice (key : OptionRow → Key4) (b : OptionRow) (l : List OptionRow) :
    minBy4 key b l = b ∨ minBy4 key b l ∈ l := by
  induction l generalizing b with
  | nil => exact Or.inl rfl
  | cons r rest ih =>
    unfold minBy4
    rcases ih (if key4Lt (key r) (key b) then r else b) with h | h
    · rw [h]
      split_ifs with hlt
      · exact Or.inr (List.mem_cons_self r rest)
      · exact Or.inl rfl
    · exact Or.inr (List.mem_cons_of_mem r h)

theorem minBy4_min (key : OptionRow → Key4) (b : OptionRow) (l : List OptionRow) :
    ∀ x, (x = b ∨ x ∈ l) → key4Le (key (minBy4 key b l)) (key x) := by
  induction l generalizing b with
  | nil =>
    intro x hx
    rcases hx with h | h
    · rw [h]; unfold minBy4; exact key4Le_refl _
    · cases h
  | cons r rest ih =>
    intro x hx
    unfold minBy4
    by_cases hlt : key4Lt (key r) (key b)
    · rw [if_pos hlt]
      have hbase := ih r
      rcases hx with h | h
      · rw [h]
        exact key4Le_trans (hbase r (Or.inl rfl)) (key4Le_of_lt hlt)
      · rcases List.mem_cons.mp h with h1 | h1
        · rw [h1]
          exact hbase r (Or.inl rfl)
        · exact hbase x (Or.inr h1)
    · rw [if_neg hlt]
      have hbase := ih b
      rcases hx with h | h
      · rw [h]
        exact hbase b (Or.inl rfl)
      · rcases List.mem_cons.mp h with h1 | h1
        · rw [h1]
          exact key4Le_trans (hbase b (Or.inl rfl)) (key4Le_of_not_lt hlt)
        · exact hbase x (Or.inr h1)

/-- Best row of a nonempty filtered set under a level spec. -/
def specBest (spec : LevelSpec) (l : List OptionRow) : OptionRow :=
  match l with
  | [] => dummyRow
  | r :: rs => minBy4 spec.key r rs

theorem levelBest_eq (tt : TradeType) (px : ℚ) (pc : Bool) (rows : List OptionRow) (k : ℕ) :
    levelBest tt px pc rows k =
      specBest ((specsOf tt px pc).getD k dummySpec) (levelFiltered tt px pc rows k) := by
  cases h : levelFiltered tt px pc rows k with
  | nil => simp [levelBest, specBest, h]
  | cons r rs => simp [levelBest, specBest, levelKey, h]

theorem pickLadder_eq_none (rows : List OptionRow) :
    ∀ (specs : List LevelSpec) (i : ℕ),
    (∀ k, k < specs.length → rows.filter ((specs.getD k dummySpec).keep) = []) →
    pickLadder rows specs i = none := by
  intro specs
  induction specs with
  | nil => intro i _; rfl
  | cons spec rest ih =>
    intro i h
    have h0 := h 0 (by simp)
    simp only [List.getD_cons_zero] at h0
    have hrec := ih (i + 1) (fun k hk => by
      have := h (k + 1) (by simpa using Nat.succ_lt_succ hk)
      simpa using this)
    simp [pickLadder, h0, hrec]

theorem pickLadder_eq_some (rows : List OptionRow) :
    ∀ (specs : List LevelSpec) (i k : ℕ), k < specs.length →
    (∀ j, j < k → rows.filter ((specs.getD j dummySpec).keep) = []) →
    rows.filter ((specs.getD k dummySpec).keep) ≠ [] →
    pickLadder rows specs i =
      some (specBest (specs.getD k dummySpec)
        (rows.filter ((specs.getD k dummySpec).keep)), i + k) := by
  intro specs
  induction specs with
  | nil =>
    intro i k hk
    exact absurd hk (Nat.not_lt_zero k)
  | cons spec rest ih =>
    intro i k hk hprev hne
    cases k with
    | zero =>
      simp only [List.getD_cons_zero] at hne ⊢
      cases hfil : rows.filter spec.keep with
      | nil => exact absurd hfil hne
      | cons r rs => simp [pickLadder, hfil, specBest]
    | succ k =>
      have h0 := hprev 0 (Nat.succ_pos k)
      simp only [List.getD_cons_zero] at h0
      simp only [List.getD_cons_succ] at hne ⊢
      have hrec := ih (i + 1) k (Nat.lt_of_succ_lt_succ hk) (fun j hj => by
        have := hprev (j + 1) (Nat.succ_lt_succ hj)
        simpa using this) hne
      rw [show i + (k + 1) = (i + 1) + k by omega]
      simp [pickLadder, h0, hrec]

theorem pickLadder_some_inv (rows : List OptionRow) :
    ∀ (specs : List LevelSpec) (i : ℕ) (r : OptionRow) (m : ℕ),
    pickLadder rows specs i = some (r, m) →
    ∃ k, k < specs.length ∧ m = i + k ∧
      (∀ j, j < k → rows.filter ((specs.getD j dummySpec).keep) = []) ∧
      rows.filter ((specs.getD k dummySpec).keep) ≠ [] ∧
      r = specBest (specs.getD k dummySpec) (rows.filter ((specs.getD k dummySpec).keep)) := by
  intro specs
  induction specs with
  | nil =>
    intro i r m h
    simp [pickLadder] at h
  | cons spec rest ih =>
    intro i r m h
    cases hfil : rows.filter spec.keep with
    | nil =>
      rw [pickLadder, hfil] at h
      obtain ⟨k, hk, hm, hprev, hne, hr⟩ := ih (i + 1) r m h
      refine ⟨k + 1, Nat.succ_lt_succ hk, by omega, ?_, by simpa using hne, by simpa using hr⟩
      intro j hj
      cases j with
      | zero => simpa using hfil
      | succ j =>
        have := hprev j (Nat.lt_of_succ_lt_succ hj)
        simpa using this
    | cons a as =>
      rw [pickLadder, hfil] at h
      simp only [Option.some.injEq, Prod.mk.injEq] at h
      refine ⟨0, by simp, by omega, ?_, by simp [hfil], by simp [hfil, specBest, h.1.symm]⟩
      intro j hj
      exact absurd hj (Nat.not_lt_zero j)

theorem specsOf_length (tt : TradeType) (px : ℚ) (pc : Bool) :
    (specsOf tt px pc).length = 4 := by
  cases tt <;> rfl

theorem roundHalfEven_ge (q : ℚ) : q - 1/2 ≤ (roundHalfEven q : ℚ) := by
  have h0 : (⌊q⌋ : ℚ) ≤ q := Int.floor_le q
  have h1 : q < ⌊q⌋ + 1 := Int.lt_floor_add_one q
  simp only [roundHalfEven]
  split_ifs with hr hr2 he
  · linarith
  · push_cast
    linarith
  · linarith
  · push_cast
    linarith

theorem roundHalfEven_le (q : ℚ) : (roundHalfEven q : ℚ) ≤ q + 1/2 := by
  have h0 : (⌊q⌋ : ℚ) ≤ q := Int.floor_le q
  have h1 : q < ⌊q⌋ + 1 := Int.lt_floor_add_one q
  simp only [roundHalfEven]
  split_ifs with hr hr2 he
  · linarith
  · push_cast
    linarith
  · linarith
  · push_cast
    linarith

theorem roundHalfEven_intCast (n : ℤ) : roundHalfEven (n : ℚ) = n := by
  simp only [roundHalfEven, Int.floor_intCast]
  norm_num

theorem roundHalfEven_nonneg (q : ℚ) (h : 0 ≤ q) : 0 ≤ roundHalfEven q := by
  have hg := roundHalfEven_ge q
  have h2 : (-1 : ℚ) < (roundHalfEven q : ℚ) := by linarith
  have h3 : (-1 : ℤ) < roundHalfEven q := by exact_mod_cast h2
  omega

theorem roundHalfEven_le_int (q : ℚ) (N : ℤ) (h : q ≤ (N : ℚ)) : roundHalfEven q ≤ N := by
  have hl := roundHalfEven_le q
  have h2 : (roundHalfEven q : ℚ) < (N : ℚ) + 1 := by linarith
  have h3 : roundHalfEven q < N + 1 := by exact_mod_cast h2
  omega

theorem round2_of_cents (q : ℚ) (z : ℤ) (h : q * 100 = (z : ℚ)) : round2 q = q := by
  unfold round2
  rw [h, roundHalfEven_intCast, ← h]
  ring

theorem ite_lt_eq_max (h c : ℚ) : (if h < c then c else h) = max h c := by
  rcases le_or_lt c h with hcle | hlt
  · rw [if_neg (not_lt.mpr hcle), max_eq_left hcle]
  · rw [if_pos hlt, max_eq_right hlt.le]

set_option maxHeartbeats 2000000 in
/-- Branch normal form of one tracker pass, used by the claim proofs. -/
theorem autoTickGen_eval (pos : PositionState) (data : SignalData) (c : ℚ)
    (refresh : PositionState → PositionState) (u s : Bool) (n : ℕ) :
    autoTickGen pos data (some c) refresh u s n =
      (let act := trailingActive pos data
       let pos1 := if act then persistPeak pos c else pos
       if act ∧ c ≤ effHighest pos c * (1 - toFloat data.trailing_stop_per / 100) then
         (let r := refresh pos1
          if r.status ≠ .opened then (.trailingAborted, r)
          else if u ∧ ¬ s then (.trailingNotifyFailed, r)
          else (.trailingFired, applySlExit r n))
       else if 0 < toFloat data.sl_price ∧ c ≤ toFloat data.sl_price then
         (let r := refresh pos1
          if r.status ≠ .opened then (.slAborted, r)
          else if u ∧ ¬ s then (.slNotifyFailed, r)
          else (.slFired, applySlExit r n))
       else if 0 < toFloat (data.tpPrice (pos.tp_hit_level + 1)) ∧
           toFloat (data.tpPrice (pos.tp_hit_level + 1)) ≤ c then
         (let r := refresh pos1
          if r.status ≠ .opened then (.tpAborted, r)
          else if u ∧ ¬ s then (.tpNotifyFailed, r)
          else (.tpFired (pos.tp_hit_level + 1), applyTpExit r data n))
       else (.noAction, pos1)) := by
  by_cases hA : (trailingActive pos data = true ∧
      c ≤ effHighest pos c * (1 - toFloat data.trailing_stop_per / 100))
  all_goals by_cases hB :
    (refresh (if trailingActive pos data = true then persistPeak pos c else pos)).status ≠
      PStatus.opened
  all_goals cases u <;> cases s
  all_goals by_cases hS : (0 < toFloat data.sl_price ∧ c ≤ toFloat data.sl_price)
  all_goals by_cases hT : (0 < toFloat (data.tpPrice (pos.tp_hit_level + 1)) ∧
      toFloat (data.tpPrice (pos.tp_hit_level + 1)) ≤ c)
  all_goals simp [autoTickGen, applyPositionExit, hA, hB, hS, hT]

theorem applyTpExit_fields (pos : PositionState) (data : SignalData) (n : ℕ) :
    (applyTpExit pos data n).tp_hit_level = pos.tp_hit_level + 1 ∧
    (applyTpExit pos data n).closed_units = pos.closed_units + unitsToClose pos data ∧
    (applyTpExit pos data n).highest_price = pos.highest_price ∧
    (applyTpExit pos data n).quantity = pos.quantity ∧
    (applyTpExit pos data n).multiplier = pos.multiplier := by
  simp only [applyTpExit]
  split_ifs <;> simp

theorem applySlExit_fields (pos : PositionState) (n : ℕ) :
    (applySlExit pos n).tp_hit_level = pos.tp_hit_level ∧
    (applySlExit pos n).closed_units = pos.closed_units ∧
    (applySlExit pos n).highest_price = pos.highest_price ∧
    (applySlExit pos n).quantity = pos.quantity ∧
    (applySlExit pos n).multiplier = pos.multiplier := by
  simp [applySlExit]

theorem persistPeak_fields (pos : PositionState) (c : ℚ) :
    (persistPeak pos c).status = pos.status ∧
    (persistPeak pos c).tp_hit_level = pos.tp_hit_level ∧
    (persistPeak pos c).closed_units = pos.closed_units ∧
    (persistPeak pos c).quantity = pos.quantity ∧
    (persistPeak pos c).multiplier = pos.multiplier := by
  rcases hhp : pos.highest_price with _ | h <;> simp only [persistPeak, hhp]
  · simp
  · split_ifs <;> simp

theorem persistPeak_highest (pos : PositionState) (c h : ℚ)
    (hh : pos.highest_price = some h) :
    (persistPeak pos c).highest_price = some (max h c) := by
  simp only [persistPeak, hh]
  split_ifs with hlt
  · simp [max_eq_right hlt.le]
  · simp [hh, max_eq_left (not_lt.mp hlt)]

/-- The per-position facts that must evolve monotonically across ticks. -/
def monoStep (p q : PositionState) : Prop :=
  p.tp_hit_level ≤ q.tp_hit_level ∧ p.closed_units ≤ q.closed_units ∧
  q.quantity = p.quantity ∧ q.multiplier = p.multiplier ∧
  (p.closed_units ≤ totalUnits p → q.closed_units ≤ totalUnits q) ∧
  (∀ h, p.highest_price = some h → ∃ h2, q.highest_price = some h2 ∧ h ≤ h2)

theorem monoStep_refl (p : PositionState) : monoStep p p :=
  ⟨le_refl _, le_refl _, rfl, rfl, fun h => h, fun h hh => ⟨h, hh, le_refl _⟩⟩

theorem monoStep_trans {p q r : PositionState} (h1 : monoStep p q) (h2 : monoStep q r) :
    monoStep p r := by
  obtain ⟨a1, b1, c1, d1, e1, f1⟩ := h1
  obtain ⟨a2, b2, c2, d2, e2, f2⟩ := h2
  refine ⟨le_trans a1 a2, le_trans b1 b2, c2.trans c1, d2.trans d1,
    fun h => e2 (e1 h), fun h hh => ?_⟩
  obtain ⟨h2a, hq, hle⟩ := f1 h hh
  obtain ⟨h3, hr, hle2⟩ := f2 h2a hq
  exact ⟨h3, hr, le_trans hle hle2⟩

theorem totalUnits_congr {p q : PositionState} (hq : q.quantity = p.quantity)
    (hm : q.multiplier = p.multiplier) : totalUnits q = totalUnits p := by
  unfold totalUnits
  rw [hq, hm]

theorem monoStep_applySl (p : PositionState) (n : ℕ) : monoStep p (applySlExit p n) := by
  obtain ⟨h1, h2, h3, h4, h5⟩ := applySlExit_fields p n
  refine ⟨h1.ge, h2.ge, h4, h5, fun h => ?_, fun x hh => ⟨x, h3 ▸ hh, le_refl _⟩⟩
  rw [h2, totalUnits_congr h4 h5]
  exact h

theorem monoStep_persistPeak (p : PositionState) (c : ℚ) : monoStep p (persistPeak p c) := by
  obtain ⟨h1, h2, h3, h4, h5⟩ := persistPeak_fields p c
  refine ⟨h2.ge, h3.ge, h4, h5, fun h => ?_, fun x hh => ?_⟩
  · rw [h3, totalUnits_congr h4 h5]
    exact h
  · rw [persistPeak_highest p c x hh]
    exact ⟨max x c, rfl, le_max_left x c⟩

theorem unitsToClose_nonneg (p : PositionState) (data : SignalData)
    (htk : 0 ≤ takeoffPct data (p.tp_hit_level + 1)) : 0 ≤ unitsToClose p data := by
  unfold unitsToClose
  apply roundHalfEven_nonneg
  have hrem : (0 : ℚ) ≤ (remainingUnits p : ℚ) := by
    have : (0 : ℤ) ≤ remainingUnits p := le_max_left 0 _
    exact_mod_cast this
  positivity

theorem unitsToClose_le_remaining (p : PositionState) (data : SignalData)
    (htk : takeoffPct data (p.tp_hit_level + 1) ≤ 100) :
    unitsToClose p data ≤ remainingUnits p := by
  unfold unitsToClose
  apply roundHalfEven_le_int
  have hrem : (0 : ℚ) ≤ (remainingUnits p : ℚ) := by
    have : (0 : ℤ) ≤ remainingUnits p := le_max_left 0 _
    exact_mod_cast this
  calc (remainingUnits p : ℚ) * takeoffPct data (p.tp_hit_level + 1) / 100
      ≤ (remainingUnits p : ℚ) * 100 / 100 := by
        apply div_le_div_of_nonneg_right ?_ (by norm_num)
        exact mul_le_mul_of_nonneg_left htk hrem
    _ = (remainingUnits p : ℚ) := by ring

theorem monoStep_applyTp (p : PositionState) (data : SignalData) (n : ℕ)
    (htk0 : 0 ≤ takeoffPct data (p.tp_hit_level + 1))
    (htk1 : takeoffPct data (p.tp_hit_level + 1) ≤ 100) :
    monoStep p (applyTpExit p data n) := by
  obtain ⟨h1, h2, h3, h4, h5⟩ := applyTpExit_fields p data n
  have hadd := unitsToClose_nonneg p data htk0
  have hrem := unitsToClose_le_remaining p data htk1
  refine ⟨by omega, by omega, h4, h5, fun hb => ?_, fun x hh => ⟨x, h3 ▸ hh, le_refl _⟩⟩
  rw [h2, totalUnits_congr h4 h5]
  have : remainingUnits p = totalUnits p - p.closed_units := by
    unfold remainingUnits
    omega
  omega

set_option maxHeartbeats 2000000 in
theorem autoTickSeq_snd_cases (pos : PositionState) (data : SignalData) (c : ℚ)
    (u s : Bool) (n : ℕ) :
    (autoTickSeq pos data (some c) u s n).2 = pos ∨
    (autoTickSeq pos data (some c) u s n).2 = persistPeak pos c ∨
    (autoTickSeq pos data (some c) u s n).2 = applySlExit pos n ∨
    (autoTickSeq pos data (some c) u s n).2 = applySlExit (persistPeak pos c) n ∨
    (autoTickSeq pos data (some c) u s n).2 = applyTpExit pos data n ∨
    (autoTickSeq pos data (some c) u s n).2 = applyTpExit (persistPeak pos c) data n := by
  rw [autoTickSeq, autoTickGen_eval]
  dsimp only [id_eq]
  generalize trailingActive pos data = b
  cases b <;>
    simp only [Bool.false_eq_true, false_and, true_and, if_true, if_false,
      ite_true, ite_false, ite_self] <;>
    split_ifs <;> tauto

theorem autoTickSeq_mono (pos : PositionState) (data : SignalData) (price? : Option ℚ)
    (u s : Bool) (n : ℕ)
    (htk : ∀ lvl, 0 ≤ takeoffPct data lvl ∧ takeoffPct data lvl ≤ 100) :
    monoStep pos (autoTickSeq pos data price? u s n).2 := by
  cases price? with
  | none => exact monoStep_refl pos
  | some c =>
    have hpp := monoStep_persistPeak pos c
    rcases autoTickSeq_snd_cases pos data c u s n with h | h | h | h | h | h <;> rw [h]
    · exact monoStep_refl pos
    · exact hpp
    · exact monoStep_applySl pos n
    · exact monoStep_trans hpp (monoStep_applySl _ n)
    · exact monoStep_applyTp pos data n (htk _).1 (htk _).2
    · exact monoStep_trans hpp (monoStep_applyTp _ data n (htk _).1 (htk _).2)

theorem runTicks_mono (data : SignalData)
    (htk : ∀ lvl, 0 ≤ takeoffPct data lvl ∧ takeoffPct data lvl ≤ 100) :
    ∀ (ticks : List TickInput) (pos : PositionState),
    monoStep pos (runTicks data pos ticks) := by
  intro ticks
  induction ticks with
  | nil => intro pos; exact monoStep_refl pos
  | cons i rest ih =>
    intro pos
    exact monoStep_trans
      (autoTickSeq_mono pos data i.price? i.urlPresent i.sendOk i.now htk) (ih _)

theorem applyPositionExit_ok (pos : PositionState) (kind : ExitKind) (data : SignalData)
    (u s : Bool) (now : ℕ) (h : ¬ (u = true ∧ ¬ s = true)) :
    applyPositionExit pos kind data u s now =
      ⟨true,
        (match kind with
         | .tp => applyTpExit pos data now
         | .sl => applySlExit pos now),
        if u = true then 1 else 0, if u = true ∧ s = true then 1 else 0⟩ := by
  unfold applyPositionExit
  rw [if_neg h]
  cases kind <;> rfl

theorem applyPositionExit_fail (pos : PositionState) (kind : ExitKind) (data : SignalData)
    (u s : Bool) (now : ℕ) (h : u = true ∧ ¬ s = true) :
    applyPositionExit pos kind data u s now =
      ⟨false, pos, if u = true then 1 else 0, if u = true ∧ s = true then 1 else 0⟩ := by
  unfold applyPositionExit
  rw [if_pos h]

theorem applyTpExit_realized (pos : PositionState) (data : SignalData) (now : ℕ) :
    (applyTpExit pos data now).realized_pnl =
      (if (tpPriceAt data (pos.tp_hit_level + 1)).isSome ∧ pos.entry_price.getD 0 ≠ 0 ∧
          0 < unitsToClose pos data then
        round2 (pos.realized_pnl + ((tpPriceAt data (pos.tp_hit_level + 1)).getD 0 -
          pos.entry_price.getD 0) * (unitsToClose pos data : ℚ))
      else pos.realized_pnl) := by
  simp only [applyTpExit]
  split_ifs <;> rfl

theorem applyTpExit_close_fields (pos : PositionState) (data : SignalData) (now : ℕ)
    (hclose : totalUnits pos ≤ pos.closed_units + unitsToClose pos data) :
    (applyTpExit pos data now).status = PStatus.closed ∧
    (applyTpExit pos data now).closed_at = some now ∧
    (applyTpExit pos data now).exit_price =
      (match tpPriceAt data (pos.tp_hit_level + 1) with
       | some p => some p
       | none => pos.entry_price) := by
  simp only [applyTpExit]
  rw [if_pos hclose]
  simp

theorem applyTpExit_open_fields (pos : PositionState) (data : SignalData) (now : ℕ)
    (hopen : ¬ totalUnits pos ≤ pos.closed_units + unitsToClose pos data) :
    (applyTpExit pos data now).status = pos.status ∧
    (applyTpExit pos data now).closed_at = pos.closed_at ∧
    (applyTpExit pos data now).exit_price = pos.exit_price := by
  simp only [applyTpExit]
  rw [if_neg hopen]
  simp

/-- Claim C1: a take-profit exit on an open position fires level
tp_hit_level + 1, closes round(remaining_units * takeoff_pct / 100) units of
remaining_units = display_units - closed_units with
display_units = quantity * multiplier, adds
(tp_price - entry_price) * units_to_close to realized_pnl, adds the closed
units to closed_units, and closes the position (status, exit_price, closed_at)
exactly when the new closed_units reach display_units. The realized P&L sum is
assumed representable in cents, mirroring the round(. , 2) the code applies. -/
theorem c1_tp_exit_accounting (pos : PositionState) (data : SignalData)
    (u s : Bool) (now : ℕ) (p e : ℚ) (z : ℤ)
    (hst : pos.status = PStatus.opened)
    (hq : pos.quantity ≠ 0) (hm : pos.multiplier ≠ 0)
    (htp : tpPriceAt data (pos.tp_hit_level + 1) = some p)
    (hent : pos.entry_price = some e) (he : e ≠ 0)
    (htk : 0 ≤ takeoffPct data (pos.tp_hit_level + 1))
    (hsend : u = false ∨ s = true)
    (hcent : (pos.realized_pnl + (p - e) * (unitsToClose pos data : ℚ)) * 100 = (z : ℚ)) :
    (applyPositionExit pos .tp data u s now).success = true ∧
    totalUnits pos = pos.quantity * pos.multiplier ∧
    unitsToClose pos data =
      roundHalfEven (((max 0 (totalUnits pos - pos.closed_units) : ℤ) : ℚ) *
        takeoffPct data (pos.tp_hit_level + 1) / 100) ∧
    (applyPositionExit pos .tp data u s now).state.tp_hit_level = pos.tp_hit_level + 1 ∧
    (applyPositionExit pos .tp data u s now).state.closed_units =
      pos.closed_units + unitsToClose pos data ∧
    (applyPositionExit pos .tp data u s now).state.realized_pnl =
      pos.realized_pnl + (p - e) * (unitsToClose pos data : ℚ) ∧
    (((applyPositionExit pos .tp data u s now).state.status = PStatus.closed ∧
        (applyPositionExit pos .tp data u s now).state.exit_price = some p ∧
        (applyPositionExit pos .tp data u s now).state.closed_at = some now) ↔
      totalUnits pos ≤ pos.closed_units + unitsToClose pos data) := by
  have hfail : ¬ (u = true ∧ ¬ s = true) := by
    rcases hsend with h | h <;> simp [h]
  rw [applyPositionExit_ok pos .tp data u s now hfail]
  obtain ⟨hf1, hf2, _, _, _⟩ := applyTpExit_fields pos data now
  have hq1 : pyOr pos.quantity 1 = pos.quantity := by
    unfold pyOr
    rw [if_neg hq]
  have hm1 : pyOr pos.multiplier 100 = pos.multiplier := by
    unfold pyOr
    rw [if_neg hm]
  have htot : totalUnits pos = pos.quantity * pos.multiplier := by
    unfold totalUnits
    rw [hq1, hm1]
  have hadd0 : 0 ≤ unitsToClose pos data := unitsToClose_nonneg pos data htk
  have hreal : (applyTpExit pos data now).realized_pnl =
      pos.realized_pnl + (p - e) * (unitsToClose pos data : ℚ) := by
    rw [applyTpExit_realized pos data now]
    rcases lt_or_eq_of_le hadd0 with hpos | hzero
    · rw [if_pos ⟨by rw [htp]; rfl, by rw [hent]; exact he, hpos⟩]
      rw [htp, hent]
      exact round2_of_cents _ z hcent
    · rw [if_neg (by rw [← hzero]; simp)]
      rw [← hzero]
      ring
  refine ⟨rfl, htot, rfl, hf1, hf2, hreal, ?_⟩
  by_cases hclose : totalUnits pos ≤ pos.closed_units + unitsToClose pos data
  · obtain ⟨hs1, hs2, hs3⟩ := applyTpExit_close_fields pos data now hclose
    rw [htp] at hs3
    simp only [hs1, hs2, hs3]
    simp [hclose]
  · obtain ⟨hs1, hs2, hs3⟩ := applyTpExit_open_fields pos data now hclose
    rw [hst] at hs1
    simp only [hs1]
    constructor
    · intro hcon
      cases hcon.1
    · intro hcon
      exact absurd hcon hclose

/-- Witness position for the partial-exit example: display_units 100, entry
100, nothing closed yet. -/
def posC1 : PositionState :=
  ⟨.opened, 0, false, 0, 0, 1, 100, some 100, none, none, none⟩

/-- Witness configuration: tp1_price 120, tp1_takeoff_per 50. -/
def dataC1 : SignalData :=
  ⟨none, fun n => if n = 1 then some "120" else none,
   fun n => if n = 1 then some "50" else none, none, none⟩

theorem c1_units : unitsToClose posC1 dataC1 = 50 := by
  have h1 : remainingUnits posC1 = 100 := rfl
  have h2 : takeoffPct dataC1 (posC1.tp_hit_level + 1) = 50 := rfl
  unfold unitsToClose
  rw [h1, h2]
  have h3 : ((100 : ℤ) : ℚ) * 50 / 100 = ((50 : ℤ) : ℚ) := by norm_num
  rw [h3, roundHalfEven_intCast]

theorem c1_witness :
    (applyPositionExit posC1 .tp dataC1 false true 5).state.realized_pnl = 1000 ∧
    (applyPositionExit posC1 .tp dataC1 false true 5).state.closed_units = 50 ∧
    (applyPositionExit posC1 .tp dataC1 false true 5).state.status = PStatus.opened := by
  have h := c1_tp_exit_accounting posC1 dataC1 false true 5 120 100 100000 rfl
    (by decide) (by decide) rfl rfl (by norm_num)
    (by rw [show takeoffPct dataC1 (posC1.tp_hit_level + 1) = 50 from rfl]; norm_num)
    (Or.inl rfl)
    (by rw [c1_units]; norm_num [posC1])
  obtain ⟨-, -, -, -, hcl, hre, -⟩ := h
  have hnc : ¬ totalUnits posC1 ≤ posC1.closed_units + unitsToClose posC1 dataC1 := by
    rw [c1_units]
    decide
  have hopen := (applyTpExit_open_fields posC1 dataC1 5 hnc).1
  refine ⟨?_, ?_, ?_⟩
  · rw [hre, c1_units]
    norm_num [posC1]
  · rw [hcl, c1_units]
    decide
  · rw [applyPositionExit_ok posC1 .tp dataC1 false true 5 (by simp)]
    exact hopen

/-- Claim C2 counterexample: with no resolvable webhook URL (no active channel
anywhere), _apply_position_exit returns success and mutates the position even
though zero notifications were delivered, refuting that success comes only
after exactly one delivered notification. -/
theorem c2_counterexample :
    (applyPositionExit posC1 .sl dataC1 false false 7).success = true ∧
    (applyPositionExit posC1 .sl dataC1 false false 7).sendsDelivered = 0 ∧
    (applyPositionExit posC1 .sl dataC1 false false 7).state.status = PStatus.closed := by
  rw [applyPositionExit_ok posC1 .sl dataC1 false false 7 (by simp)]
  refine ⟨rfl, by simp, rfl⟩

/-- Claim C2 amended: when a webhook URL resolves, success implies exactly one
notification was attempted and delivered, and a failed delivery aborts with
the position unchanged; when no URL resolves, the exit succeeds with zero
notifications. -/
theorem c2_amended (pos : PositionState) (kind : ExitKind) (data : SignalData)
    (u s : Bool) (now : ℕ) :
    ((applyPositionExit pos kind data u s now).success = true →
      (applyPositionExit pos kind data u s now).sendsDelivered =
        (if u = true then 1 else 0) ∧
      (applyPositionExit pos kind data u s now).sendsAttempted =
        (if u = true then 1 else 0)) ∧
    (u = true ∧ s = false →
      (applyPositionExit pos kind data u s now).success = false ∧
      (applyPositionExit pos kind data u s now).state = pos) ∧
    (u = false →
      (applyPositionExit pos kind data u s now).success = true ∧
      (applyPositionExit pos kind data u s now).sendsDelivered = 0) := by
  cases u <;> cases s <;> cases kind <;> simp [applyPositionExit]

theorem c2_amended_witness :
    (applyPositionExit posC1 .sl dataC1 true false 7).success = false ∧
    (applyPositionExit posC1 .sl dataC1 true false 7).state = posC1 :=
  (c2_amended posC1 .sl dataC1 true false 7).2.1 ⟨rfl, rfl⟩

/-- Takeoff percent defaults to 50 whenever the key is absent. -/
theorem takeoffPct_none (data : SignalData) (n : ℕ)
    (h : data.tpTakeoffPer n = none) : takeoffPct data n = 50 := by
  unfold takeoffPct
  rw [h]

/-- Witness configuration for C3: tp1_price present, tp1_takeoff_per absent,
no further levels configured, so level 1 is the last configured level. -/
def dataC3 : SignalData :=
  ⟨none, fun n => if n = 1 then some "120" else none, fun _ => none, none, none⟩

theorem c3_units : unitsToClose posC1 dataC3 = 50 := by
  have h1 : remainingUnits posC1 = 100 := rfl
  have h2 : takeoffPct dataC3 (posC1.tp_hit_level + 1) = 50 := rfl
  unfold unitsToClose
  rw [h1, h2]
  have h3 : ((100 : ℤ) : ℚ) * 50 / 100 = ((50 : ℤ) : ℚ) := by norm_num
  rw [h3, roundHalfEven_intCast]

/-- Claim C3 counterexample: level 1 is the last configured level of dataC3
(no higher level has any key) and no takeoff percent is configured, yet
_apply_position_exit uses the 50 percent default, closes only half of the
remaining size and leaves the position open, instead of the claimed 100
percent default for the final level. -/
theorem c3_counterexample :
    dataC3.tpTakeoffPer 1 = none ∧ dataC3.tpPrice 2 = none ∧
    takeoffPct dataC3 1 = 50 ∧
    (applyPositionExit posC1 .tp dataC3 false true 7).state.closed_units = 50 ∧
    (applyPositionExit posC1 .tp dataC3 false true 7).state.status = PStatus.opened := by
  have hnc : ¬ totalUnits posC1 ≤ posC1.closed_units + unitsToClose posC1 dataC3 := by
    rw [c3_units]
    decide
  rw [applyPositionExit_ok posC1 .tp dataC3 false true 7 (by simp)]
  refine ⟨rfl, rfl, rfl, ?_, ?_⟩
  · have := (applyTpExit_fields posC1 dataC3 7).2.1
    rw [this, c3_units]
    decide
  · exact (applyTpExit_open_fields posC1 dataC3 7 hnc).1

/-- One take-profit level of a trade-plan preset as cleaned by _clean_plan
(views.py lines 1909-1936); only the takeoff field matters here. -/
structure PlanLevel where
  mode : String
  per : String
  stock_price : String
  takeoff : String
deriving DecidableEq

/-- The takeoff normalization of _clean_plan (views.py lines 1937-1941): every
level but the last is forced to takeoff "50" and the last to "100". -/
def normalizeTakeoffs : List PlanLevel → List PlanLevel
  | [] => []
  | [l] => [{ l with takeoff := "100" }]
  | l :: rest => { l with takeoff := "50" } :: normalizeTakeoffs rest

theorem normalizeTakeoffs_map : ∀ ls : List PlanLevel, ls ≠ [] →
    (normalizeTakeoffs ls).map PlanLevel.takeoff =
      List.replicate (ls.length - 1) "50" ++ ["100"] := by
  intro ls
  induction ls with
  | nil => intro h; exact absurd rfl h
  | cons l rest ih =>
    intro _
    cases rest with
    | nil => simp [normalizeTakeoffs]
    | cons l2 rest2 =>
      have h2 := ih (by simp)
      simp only [normalizeTakeoffs, List.map_cons, h2]
      simp [List.replicate_succ]

/-- Claim C3 amended: _apply_position_exit defaults the takeoff percent to 50
on every level, the last configured one included; the 100 percent last-level
default is applied earlier, by the trade-plan normalization that stores an
explicit "100" on the final level; and an explicit takeoff of 100 percent
does close the full remaining size and set status closed. -/
theorem c3_amended :
    (∀ (data : SignalData) (n : ℕ), data.tpTakeoffPer n = none → takeoffPct data n = 50) ∧
    (∀ (pos : PositionState) (data : SignalData) (now : ℕ),
      takeoffPct data (pos.tp_hit_level + 1) = 100 →
      (applyTpExit pos data now).status = PStatus.closed ∧
      (applyTpExit pos data now).closed_units = max pos.closed_units (totalUnits pos)) ∧
    (∀ ls : List PlanLevel, ls ≠ [] →
      (normalizeTakeoffs ls).map PlanLevel.takeoff =
        List.replicate (ls.length - 1) "50" ++ ["100"]) := by
  refine ⟨takeoffPct_none, ?_, normalizeTakeoffs_map⟩
  intro pos data now h100
  have hu : unitsToClose pos data = remainingUnits pos := by
    unfold unitsToClose
    rw [h100]
    have h2 : (remainingUnits pos : ℚ) * 100 / 100 = ((remainingUnits pos : ℤ) : ℚ) := by
      ring
    rw [h2, roundHalfEven_intCast]
  have hclose : totalUnits pos ≤ pos.closed_units + unitsToClose pos data := by
    rw [hu]
    unfold remainingUnits
    omega
  refine ⟨(applyTpExit_close_fields pos data now hclose).1, ?_⟩
  rw [(applyTpExit_fields pos data now).2.1, hu]
  unfold remainingUnits
  omega

/-- Witness configuration with an explicit takeoff of 100 on level 1. -/
def dataC3b : SignalData :=
  ⟨none, fun n => if n = 1 then some "120" else none,
   fun n => if n = 1 then some "100" else none, none, none⟩

theorem c3_amended_witness :
    takeoffPct dataC3 1 = 50 ∧
    (applyTpExit posC1 dataC3b 7).status = PStatus.closed ∧
    (normalizeTakeoffs [⟨"percent", "20", "", ""⟩, ⟨"percent", "40", "", "70"⟩]).map
      PlanLevel.takeoff = ["50", "100"] := by
  refine ⟨c3_amended.1 dataC3 1 rfl, ?_, ?_⟩
  · exact (c3_amended.2.1 posC1 dataC3b 7 rfl).1
  · have := c3_amended.2.2 [⟨"percent", "20", "", ""⟩, ⟨"percent", "40", "", "70"⟩] (by simp)
    rw [this]
    rfl

/-- An already-closed position, fully recorded: closed at a take-profit price
of 120 with closed_at stamp 1. -/
def posClosed : PositionState :=
  ⟨.closed, 1, false, 100, 2000, 1, 100, some 100, some 120, none, some 1⟩

/-- Claim C9 counterexample: _apply_position_exit never checks status, so
re-running a stop-loss exit on the already-closed posClosed succeeds and
mutates it: exit_price is overwritten from 120 back to the entry price and
closed_at is re-stamped, so the call is not a no-op. -/
theorem c9_counterexample :
    posClosed.status = PStatus.closed ∧
    (applyPositionExit posClosed .sl dataC1 false true 9).success = true ∧
    (applyPositionExit posClosed .sl dataC1 false true 9).state.exit_price = some 100 ∧
    posClosed.exit_price = some 120 ∧
    (applyPositionExit posClosed .sl dataC1 false true 9).state.closed_at = some 9 ∧
    posClosed.closed_at = some 1 ∧
    (applyPositionExit posClosed .sl dataC1 false true 9).state ≠ posClosed := by
  rw [applyPositionExit_ok posClosed .sl dataC1 false true 9 (by simp)]
  refine ⟨rfl, rfl, rfl, rfl, rfl, rfl, ?_⟩
  intro h
  have := congrArg PositionState.closed_at h
  simp [applySlExit, posClosed] at this

/-- Claim C9 amended: the no-op guarantee on closed positions lives in the
auto-tracking call sites, not in apply_exit: inside the exit transaction the
tracker re-reads the position, and when the re-read row is closed it never
fires any exit and an aborted attempt leaves the row exactly as re-read. -/
theorem c9_amended (pos : PositionState) (data : SignalData) (c : ℚ)
    (r : PositionState) (u s : Bool) (n : ℕ) (lvl : ℕ)
    (hr : r.status = PStatus.closed) :
    ((autoTickGen pos data (some c) (fun _ => r) u s n).1 ≠ TickAction.trailingFired ∧
     (autoTickGen pos data (some c) (fun _ => r) u s n).1 ≠ TickAction.slFired ∧
     (autoTickGen pos data (some c) (fun _ => r) u s n).1 ≠ TickAction.tpFired lvl ∧
     (autoTickGen pos data (some c) (fun _ => r) u s n).1 ≠ TickAction.trailingNotifyFailed ∧
     (autoTickGen pos data (some c) (fun _ => r) u s n).1 ≠ TickAction.slNotifyFailed ∧
     (autoTickGen pos data (some c) (fun _ => r) u s n).1 ≠ TickAction.tpNotifyFailed) ∧
    (((autoTickGen pos data (some c) (fun _ => r) u s n).1 = TickAction.trailingAborted ∨
      (autoTickGen pos data (some c) (fun _ => r) u s n).1 = TickAction.slAborted ∨
      (autoTickGen pos data (some c) (fun _ => r) u s n).1 = TickAction.tpAborted) →
      (autoTickGen pos data (some c) (fun _ => r) u s n).2 = r) := by
  have hne : r.status ≠ PStatus.opened := by
    rw [hr]
    intro h
    cases h
  rw [autoTickGen_eval]
  dsimp only
  split_ifs with h1 h2 h3 <;> simp_all

theorem c9_amended_witness :
    (autoTickGen posC1 dataC1 (some 121) (fun _ => posClosed) false true 9).1 ≠
      TickAction.tpFired 1 ∧
    ((autoTickGen posC1 dataC1 (some 121) (fun _ => posClosed) false true 9).1 =
        TickAction.tpAborted →
      (autoTickGen posC1 dataC1 (some 121) (fun _ => posClosed) false true 9).2 =
        posClosed) := by
  have h := c9_amended posC1 dataC1 121 posClosed false true 9 1 rfl
  exact ⟨h.1.2.2.1, fun ha => h.2 (Or.inr (Or.inr ha))⟩

/-- The take-profit branch of the transaction guard: abort exactly when the
re-read row is not open, else apply the exit to the re-read row. -/
theorem tickGen_tp_guard (pos : PositionState) (data : SignalData) (c : ℚ)
    (r : PositionState) (u s : Bool) (n : ℕ)
    (hnt : ¬ (trailingActive pos data = true ∧
      c ≤ effHighest pos c * (1 - toFloat data.trailing_stop_per / 100)))
    (hnsl : ¬ (0 < toFloat data.sl_price ∧ c ≤ toFloat data.sl_price))
    (htp : 0 < toFloat (data.tpPrice (pos.tp_hit_level + 1)) ∧
      toFloat (data.tpPrice (pos.tp_hit_level + 1)) ≤ c) :
    (r.status ≠ PStatus.opened →
      autoTickGen pos data (some c) (fun _ => r) u s n = (TickAction.tpAborted, r)) ∧
    (r.status = PStatus.opened →
      (autoTickGen pos data (some c) (fun _ => r) u s n).2 =
        (applyPositionExit r .tp data u s n).state ∧
      (autoTickGen pos data (some c) (fun _ => r) u s n).1 =
        (if u = true ∧ ¬ s = true then TickAction.tpNotifyFailed
         else TickAction.tpFired (pos.tp_hit_level + 1))) := by
  rw [autoTickGen_eval]
  dsimp only
  rw [if_neg hnt, if_neg hnsl, if_pos htp]
  constructor
  · intro hcl
    rw [if_pos hcl]
  · intro hopen
    rw [if_neg (by rw [hopen]; simp)]
    by_cases hc : u = true ∧ ¬ s = true
    · rw [if_pos hc, if_pos hc, applyPositionExit_fail r .tp data u s n hc]
      exact ⟨rfl, rfl⟩
    · rw [if_neg hc, if_neg hc, applyPositionExit_ok r .tp data u s n hc]
      exact ⟨rfl, rfl⟩

/-- The database row as a concurrent writer left it: still open but already
advanced to tp_hit_level 1 while the tracker evaluated the stale copy. -/
def refreshedC8 : PositionState :=
  ⟨.opened, 1, false, 50, 1000, 1, 100, some 100, none, none, none⟩

/-- Claim C8 counterexample: the tracker validated the TP1 condition on the
stale row (tp_hit_level 0), a concurrent action advanced the row to
tp_hit_level 1 while leaving it open, and the re-read guard still fires: the
exit is applied to the refreshed row, pushing tp_hit_level to 2, instead of
aborting as the claim requires. -/
theorem c8_counterexample :
    posC1.tp_hit_level = 0 ∧
    refreshedC8.status = PStatus.opened ∧ refreshedC8.tp_hit_level = 1 ∧
    (autoTickGen posC1 dataC1 (some 121) (fun _ => refreshedC8) false true 9).1 =
      TickAction.tpFired 1 ∧
    (autoTickGen posC1 dataC1 (some 121) (fun _ => refreshedC8) false true 9).2.tp_hit_level
      = 2 := by
  have h := tickGen_tp_guard posC1 dataC1 121 refreshedC8 false true 9
    (by
      intro hcon
      rw [show trailingActive posC1 dataC1 = false from rfl] at hcon
      exact absurd hcon.1 (by simp))
    (by
      intro hcon
      rw [show toFloat dataC1.sl_price = 0 from rfl] at hcon
      exact absurd hcon.1 (lt_irrefl 0))
    (by
      rw [show toFloat (dataC1.tpPrice (posC1.tp_hit_level + 1)) = 120 from rfl]
      norm_num)
  obtain ⟨hst2, hact⟩ := h.2 rfl
  refine ⟨rfl, rfl, rfl, ?_, ?_⟩
  · rw [hact]
    norm_num [posC1]
  · rw [hst2, applyPositionExit_ok refreshedC8 .tp dataC1 false true 9 (by simp)]
    exact (applyTpExit_fields refreshedC8 dataC1 9).1

/-- Claim C10: a missing, blank or non-numeric stop-loss or take-profit price
is coerced to 0.0 by the tracker parser (which never raises: it is a total
function), and since the stop-loss trigger needs parsed sl_price above zero
and the take-profit trigger needs the parsed next tp price above zero, such a
configuration silently disables that trigger on every tick. -/
theorem c10_malformed_disabled :
    toFloat none = 0 ∧
    (∀ sv : String, dropPct (trimChars sv.toList) = [] → toFloat (some sv) = 0) ∧
    (∀ sv : String, parseFloatChars (dropPct (trimChars sv.toList)) = none →
      toFloat (some sv) = 0) ∧
    (∀ (pos : PositionState) (data : SignalData) (price? : Option ℚ) (u s : Bool) (n : ℕ),
      toFloat data.sl_price = 0 →
      (autoTickSeq pos data price? u s n).1 ≠ TickAction.slFired ∧
      (autoTickSeq pos data price? u s n).1 ≠ TickAction.slAborted ∧
      (autoTickSeq pos data price? u s n).1 ≠ TickAction.slNotifyFailed) ∧
    (∀ (pos : PositionState) (data : SignalData) (price? : Option ℚ) (u s : Bool)
        (n lvl : ℕ),
      toFloat (data.tpPrice (pos.tp_hit_level + 1)) = 0 →
      (autoTickSeq pos data price? u s n).1 ≠ TickAction.tpFired lvl ∧
      (autoTickSeq pos data price? u s n).1 ≠ TickAction.tpAborted ∧
      (autoTickSeq pos data price? u s n).1 ≠ TickAction.tpNotifyFailed) := by
  refine ⟨rfl, ?_, ?_, ?_, ?_⟩
  · intro sv h
    simp only [String.toList] at h
    simp [toFloat, h]
  · intro sv h
    by_cases he : dropPct (trimChars sv.toList) = [] <;>
      simp only [String.toList] at h he <;> simp [toFloat, he, h]
  · intro pos data price? u s n hsl
    cases price? with
    | none =>
      have h : (autoTickSeq pos data none u s n).1 = TickAction.noQuote := rfl
      rw [h]
      exact ⟨by simp, by simp, by simp⟩
    | some c =>
      rw [autoTickSeq, autoTickGen_eval]
      dsimp only [id_eq]
      rw [hsl]
      simp only [lt_irrefl, false_and, if_false]
      split_ifs <;> simp
  · intro pos data price? u s n lvl htp
    cases price? with
    | none =>
      have h : (autoTickSeq pos data none u s n).1 = TickAction.noQuote := rfl
      rw [h]
      exact ⟨by simp, by simp, by simp⟩
    | some c =>
      rw [autoTickSeq, autoTickGen_eval]
      dsimp only [id_eq]
      rw [htp]
      simp only [lt_irrefl, false_and, if_false]
      split_ifs <;> simp

/-- Witness data for C10: a non-numeric stop-loss price and a blank next
take-profit price. -/
def dataC10 : SignalData :=
  ⟨some "oops", fun n => if n = 1 then some "" else none, fun _ => none, none, none⟩

theorem c10_witness :
    toFloat (some "oops") = 0 ∧
    parseFloatChars (dropPct (trimChars "oops".toList)) = none ∧
    (autoTickSeq posC1 dataC10 (some 50) false true 3).1 ≠ TickAction.slFired ∧
    (autoTickSeq posC1 dataC10 (some 50) false true 3).1 ≠ TickAction.tpFired 1 := by
  refine ⟨rfl, rfl, ?_, ?_⟩
  · exact (c10_malformed_disabled.2.2.2.1 posC1 dataC10 (some 50) false true 3 rfl).1
  · exact (c10_malformed_disabled.2.2.2.2 posC1 dataC10 (some 50) false true 3 1 rfl).1

/-- Claim C5: on a tick with a quote, exits are evaluated trailing stop first,
then static stop loss, then the next take-profit level, first match firing
and at most one exit applied; with the trailing stop active the tracker first
raises the stored peak to max(highest_price, current) and then fires an
SL-kind exit exactly when current is at or below
highest * (1 - trailing_pct / 100). -/
theorem c5_trailing_and_order (pos : PositionState) (data : SignalData) (c h : ℚ)
    (u s : Bool) (n : ℕ)
    (hact : trailingActive pos data = true)
    (hh : pos.highest_price = some h)
    (hst : pos.status = PStatus.opened) :
    (autoTickSeq pos data (some c) u s n).2.highest_price = some (max h c) ∧
    (c ≤ max h c * (1 - toFloat data.trailing_stop_per / 100) →
      (autoTickSeq pos data (some c) u s n).1 =
        (if u = true ∧ ¬ s = true then TickAction.trailingNotifyFailed
         else TickAction.trailingFired)) ∧
    (¬ c ≤ max h c * (1 - toFloat data.trailing_stop_per / 100) →
      ((autoTickSeq pos data (some c) u s n).1 ≠ TickAction.trailingFired ∧
       (autoTickSeq pos data (some c) u s n).1 ≠ TickAction.trailingNotifyFailed ∧
       (autoTickSeq pos data (some c) u s n).1 ≠ TickAction.trailingAborted) ∧
      (0 < toFloat data.sl_price ∧ c ≤ toFloat data.sl_price →
        (autoTickSeq pos data (some c) u s n).1 =
          (if u = true ∧ ¬ s = true then TickAction.slNotifyFailed
           else TickAction.slFired)) ∧
      (¬ (0 < toFloat data.sl_price ∧ c ≤ toFloat data.sl_price) →
        (0 < toFloat (data.tpPrice (pos.tp_hit_level + 1)) ∧
            toFloat (data.tpPrice (pos.tp_hit_level + 1)) ≤ c →
          (autoTickSeq pos data (some c) u s n).1 =
            (if u = true ∧ ¬ s = true then TickAction.tpNotifyFailed
             else TickAction.tpFired (pos.tp_hit_level + 1))) ∧
        (¬ (0 < toFloat (data.tpPrice (pos.tp_hit_level + 1)) ∧
            toFloat (data.tpPrice (pos.tp_hit_level + 1)) ≤ c) →
          (autoTickSeq pos data (some c) u s n).1 = TickAction.noAction))) := by
  have heff : effHighest pos c = max h c := by
    unfold effHighest
    rw [hh]
    exact ite_lt_eq_max h c
  have hpp_st : ¬ ((persistPeak pos c).status ≠ PStatus.opened) := by
    rw [(persistPeak_fields pos c).1, hst]
    simp
  have hpp_hi : (persistPeak pos c).highest_price = some (max h c) :=
    persistPeak_highest pos c h hh
  rw [autoTickSeq, autoTickGen_eval]
  dsimp only [id_eq]
  simp only [hact, eq_self_iff_true, true_and, if_true]
  rw [heff]
  by_cases hfire : c ≤ max h c * (1 - toFloat data.trailing_stop_per / 100)
  · rw [if_pos hfire, if_neg hpp_st]
    refine ⟨?_, fun _ => ?_, fun hcon => absurd hfire hcon⟩
    · by_cases hc : u = true ∧ ¬ s = true
      · rw [if_pos hc]
        exact hpp_hi
      · rw [if_neg hc]
        dsimp only
        rw [(applySlExit_fields _ n).2.2.1]
        exact hpp_hi
    · by_cases hc : u = true ∧ ¬ s = true
      · rw [if_pos hc, if_pos hc]
      · rw [if_neg hc, if_neg hc]
  · rw [if_neg hfire]
    by_cases hsl : 0 < toFloat data.sl_price ∧ c ≤ toFloat data.sl_price
    · rw [if_pos hsl, if_neg hpp_st]
      by_cases hc : u = true ∧ ¬ s = true
      · rw [if_pos hc]
        exact ⟨hpp_hi, fun hcon => absurd hcon hfire,
          fun _ => ⟨⟨by simp, by simp, by simp⟩, fun _ => by rw [if_pos hc],
            fun hcon => absurd hsl hcon⟩⟩
      · rw [if_neg hc]
        dsimp only
        exact ⟨by rw [(applySlExit_fields _ n).2.2.1]; exact hpp_hi,
          fun hcon => absurd hcon hfire,
          fun _ => ⟨⟨by simp, by simp, by simp⟩, fun _ => by rw [if_neg hc],
            fun hcon => absurd hsl hcon⟩⟩
    · rw [if_neg hsl]
      by_cases htp : 0 < toFloat (data.tpPrice (pos.tp_hit_level + 1)) ∧
          toFloat (data.tpPrice (pos.tp_hit_level + 1)) ≤ c
      · rw [if_pos htp, if_neg hpp_st]
        by_cases hc : u = true ∧ ¬ s = true
        · rw [if_pos hc]
          exact ⟨hpp_hi, fun hcon => absurd hcon hfire,
            fun _ => ⟨⟨by simp, by simp, by simp⟩, fun hcon => absurd hcon hsl,
              fun _ => ⟨fun _ => by rw [if_pos hc], fun hcon => absurd htp hcon⟩⟩⟩
        · rw [if_neg hc]
          dsimp only
          exact ⟨by rw [(applyTpExit_fields _ data n).2.2.1]; exact hpp_hi,
            fun hcon => absurd hcon hfire,
            fun _ => ⟨⟨by simp, by simp, by simp⟩, fun hcon => absurd hcon hsl,
              fun _ => ⟨fun _ => by rw [if_neg hc], fun hcon => absurd htp hcon⟩⟩⟩
      · rw [if_neg htp]
        exact ⟨hpp_hi, fun hcon => absurd hcon hfire,
          fun _ => ⟨⟨by simp, by simp, by simp⟩, fun hcon => absurd hcon hsl,
            fun _ => ⟨fun hcon => absurd hcon htp, fun _ => rfl⟩⟩⟩

/-- Witness position for the trailing-stop example: stored peak 150. -/
def posC5 : PositionState :=
  ⟨.opened, 0, false, 0, 0, 1, 100, some 100, none, some 150, none⟩

/-- Witness configuration: trailing stop triggered at entry with 15 percent. -/
def dataC5 : SignalData :=
  ⟨none, fun _ => none, fun _ => none, some "entry", some "15"⟩

theorem c5_witness :
    (autoTickSeq posC5 dataC5 (some 127) false true 3).1 = TickAction.trailingFired ∧
    (autoTickSeq posC5 dataC5 (some 128) false true 4).1 ≠ TickAction.trailingFired ∧
    (autoTickSeq posC5 dataC5 (some 128) false true 4).1 ≠
      TickAction.trailingNotifyFailed ∧
    (autoTickSeq posC5 dataC5 (some 160) false true 5).2.highest_price = some 160 := by
  have hper : toFloat dataC5.trailing_stop_per = 15 := rfl
  have h1 := c5_trailing_and_order posC5 dataC5 127 150 false true 3 rfl rfl rfl
  have h2 := c5_trailing_and_order posC5 dataC5 128 150 false true 4 rfl rfl rfl
  have h3 := c5_trailing_and_order posC5 dataC5 160 150 false true 5 rfl rfl rfl
  have hm127 : max (150 : ℚ) 127 = 150 := max_eq_left (by norm_num)
  have hm128 : max (150 : ℚ) 128 = 150 := max_eq_left (by norm_num)
  have hfire : (127 : ℚ) ≤ max 150 127 * (1 - toFloat dataC5.trailing_stop_per / 100) := by
    rw [hper, hm127]
    norm_num
  have hnofire : ¬ (128 : ℚ) ≤ max 150 128 * (1 - toFloat dataC5.trailing_stop_per / 100) := by
    rw [hper, hm128]
    norm_num
  refine ⟨?_, (h2.2.2 hnofire).1.1, (h2.2.2 hnofire).1.2.1, ?_⟩
  · rw [h1.2.1 hfire]
    norm_num
  · rw [h3.1, max_eq_right (by norm_num : (150 : ℚ) ≤ 160)]

/-- Sequential tick that fires the next take-profit level: the trailing stop
is inactive, no stop loss is configured, and the price reached the level. -/
theorem autoTickSeq_tp_fire (pos : PositionState) (data : SignalData) (c : ℚ)
    (u s : Bool) (n : ℕ)
    (hact : trailingActive pos data = false)
    (hsl : toFloat data.sl_price = 0)
    (htp : 0 < toFloat (data.tpPrice (pos.tp_hit_level + 1)) ∧
      toFloat (data.tpPrice (pos.tp_hit_level + 1)) ≤ c)
    (hopen : pos.status = PStatus.opened)
    (hok : ¬ (u = true ∧ ¬ s = true)) :
    autoTickSeq pos data (some c) u s n =
      (TickAction.tpFired (pos.tp_hit_level + 1), applyTpExit pos data n) := by
  rw [autoTickSeq, autoTickGen_eval]
  dsimp only [id_eq]
  simp only [hact, Bool.false_eq_true, false_and, if_false, ite_false]
  rw [hsl]
  simp only [lt_irrefl, false_and, if_false]
  rw [if_pos htp, if_neg (by rw [hopen]; simp), if_neg hok]

/-- Configuration with an out-of-range takeoff percent of 200 on level 1,
as the unvalidated edit-parameters path can store. -/
def dataC6 : SignalData :=
  ⟨none, fun n => if n = 1 then some "120" else none,
   fun n => if n = 1 then some "200" else none, none, none⟩

theorem c6_units : unitsToClose posC1 dataC6 = 200 := by
  have h1 : remainingUnits posC1 = 100 := rfl
  have h2 : takeoffPct dataC6 (posC1.tp_hit_level + 1) = 200 := rfl
  unfold unitsToClose
  rw [h1, h2]
  have h3 : ((100 : ℤ) : ℚ) * 200 / 100 = ((200 : ℤ) : ℚ) := by norm_num
  rw [h3, roundHalfEven_intCast]

/-- Claim C6 counterexample: with a configured takeoff percent of 200 (stored
unvalidated by the edit-parameters path), one tick closes 200 units on a
100-unit position, so closed_units exceeds display_units and the claimed
invariant fails on the code as written. -/
theorem c6_counterexample :
    totalUnits posC1 = 100 ∧
    (runTicks dataC6 posC1 [⟨some 121, false, true, 3⟩]).closed_units = 200 ∧
    totalUnits (runTicks dataC6 posC1 [⟨some 121, false, true, 3⟩]) = 100 ∧
    ¬ (runTicks dataC6 posC1 [⟨some 121, false, true, 3⟩]).closed_units ≤
      totalUnits (runTicks dataC6 posC1 [⟨some 121, false, true, 3⟩]) := by
  have hstep := autoTickSeq_tp_fire posC1 dataC6 121 false true 3 rfl rfl
    (by
      rw [show toFloat (dataC6.tpPrice (posC1.tp_hit_level + 1)) = 120 from rfl]
      norm_num)
    rfl (by simp)
  have hrun : runTicks dataC6 posC1 [⟨some 121, false, true, 3⟩] =
      applyTpExit posC1 dataC6 3 := by
    show runTicks dataC6 (autoTickSeq posC1 dataC6 (some 121) false true 3).2 [] = _
    rw [hstep]
    rfl
  obtain ⟨-, hcl, -, hqq, hmm⟩ := applyTpExit_fields posC1 dataC6 3
  rw [hrun, hcl, c6_units, totalUnits_congr hqq hmm]
  refine ⟨rfl, by decide, rfl, by decide⟩

/-- Claim C6 amended: provided every configured takeoff percent lies between
0 and 100 (which the preset normalization guarantees but the edit-parameters
path does not), tp_hit_level and closed_units never decrease across any
sequence of ticks, closed_units stays at most display_units, and a stored
trailing peak never decreases. -/
theorem c6_amended (pos : PositionState) (data : SignalData) (ticks : List TickInput)
    (htk : ∀ lvl, 0 ≤ takeoffPct data lvl ∧ takeoffPct data lvl ≤ 100)
    (hbound : pos.closed_units ≤ totalUnits pos) :
    pos.tp_hit_level ≤ (runTicks data pos ticks).tp_hit_level ∧
    pos.closed_units ≤ (runTicks data pos ticks).closed_units ∧
    (runTicks data pos ticks).closed_units ≤ totalUnits (runTicks data pos ticks) ∧
    (∀ h, pos.highest_price = some h →
      ∃ h2, (runTicks data pos ticks).highest_price = some h2 ∧ h ≤ h2) := by
  obtain ⟨a, b, _, _, e, f⟩ := runTicks_mono data htk ticks pos
  exact ⟨a, b, e hbound, f⟩

theorem c6_amended_witness :
    posC1.closed_units ≤
      (runTicks dataC1 posC1 [⟨some 121, false, true, 3⟩]).closed_units ∧
    (runTicks dataC1 posC1 [⟨some 121, false, true, 3⟩]).closed_units ≤
      totalUnits (runTicks dataC1 posC1 [⟨some 121, false, true, 3⟩]) := by
  have htk : ∀ lvl, 0 ≤ takeoffPct dataC1 lvl ∧ takeoffPct dataC1 lvl ≤ 100 := by
    intro lvl
    by_cases h : lvl = 1
    · subst h
      rw [show takeoffPct dataC1 1 = 50 from rfl]
      norm_num
    · rw [takeoffPct_none dataC1 lvl (by simp [dataC1, h])]
      norm_num
  have h := c6_amended posC1 dataC1 [⟨some 121, false, true, 3⟩] htk (by decide)
  exact ⟨h.2.1, h.2.2.1⟩

/-- Claim C4: the selector tries relaxation level 0 first and returns the best
candidate of the first level whose filtered set is nonempty, never reaching a
more relaxed level; only an empty level advances the ladder, and when all 4
levels are exhausted the result is the ordinary None, not an error. -/
theorem c4_progressive_relaxation (tt : TradeType) (rows : List OptionRow) (px : ℚ)
    (pc : Bool) (hpx : 0 < px) (hne : rows ≠ []) :
    ((∀ k, k < 4 → levelFiltered tt px pc rows k = []) →
      pickBestOption rows px tt pc = none) ∧
    (∀ k, k < 4 → (∀ j, j < k → levelFiltered tt px pc rows j = []) →
      levelFiltered tt px pc rows k ≠ [] →
      pickBestOption rows px tt pc = some (levelBest tt px pc rows k, k)) := by
  have hp : ¬ px ≤ 0 := not_le.mpr hpx
  constructor
  · intro hall
    unfold pickBestOption
    rw [if_neg hp, if_neg hne]
    apply pickLadder_eq_none
    intro k hk
    rw [specsOf_length] at hk
    exact hall k hk
  · intro k hk hprev hne2
    unfold pickBestOption
    rw [if_neg hp, if_neg hne]
    rw [pickLadder_eq_some rows (specsOf tt px pc) 0 k
      (by rw [specsOf_length]; exact hk) (fun j hj => hprev j hj) hne2]
    rw [levelBest_eq]
    unfold levelFiltered
    norm_num

/-- The scalp example rows: the first satisfies every level-0 constraint, the
second fails the open-interest floor and the spread cap. -/
def rowScalpA : OptionRow :=
  ⟨"O:AAA", 100, some (45/100), some 600, some (5/100), some 0⟩

def rowScalpB : OptionRow :=
  ⟨"O:BBB", 100, some (55/100), some 400, some (20/100), some 0⟩

theorem c4_scalp_filter :
    levelFiltered .scalp 100 true [rowScalpA, rowScalpB] 0 = [rowScalpA] := by
  unfold levelFiltered specsOf
  simp only [List.getD_cons_zero, List.map_cons]
  show List.filter (scalpKeep ⟨0, 0, 35/100, 60/100, 500, 10/100⟩) _ = _
  have hA : scalpKeep ⟨0, 0, 35/100, 60/100, 500, 10/100⟩ rowScalpA = true := by
    unfold scalpKeep rowScalpA
    norm_num [abs_of_pos]
  have hB : scalpKeep ⟨0, 0, 35/100, 60/100, 500, 10/100⟩ rowScalpB = false := by
    unfold scalpKeep rowScalpB
    norm_num
  simp [List.filter, hA, hB]

theorem c4_witness :
    pickBestOption [rowScalpA, rowScalpB] 100 .scalp true = some (rowScalpA, 0) := by
  have h := (c4_progressive_relaxation .scalp [rowScalpA, rowScalpB] 100 true
    (by norm_num) (by simp)).2 0 (by norm_num)
    (fun j hj => absurd hj (Nat.not_lt_zero j))
    (by rw [c4_scalp_filter]; simp)
  rw [h]
  have h2 : levelBest .scalp 100 true [rowScalpA, rowScalpB] 0 = rowScalpA := by
    unfold levelBest
    rw [c4_scalp_filter]
    rfl
  rw [h2]

/-- Two level-0 leap candidates, both surviving every filter: rowLeapA has
the better moneyness (strike 102 is exactly the +2 percent target) but a DTE
of 380, rowLeapB sits exactly on the 365-day target with worse moneyness. -/
def rowLeapA : OptionRow :=
  ⟨"O:LA", 102, some (6/10), some 600, some (4/100), some 380⟩

def rowLeapB : OptionRow :=
  ⟨"O:LB", 100, some (6/10), some 600, some (4/100), some 365⟩

theorem c7_leap_filter :
    List.filter (((specsOf .leap 100 true).getD 0 dummySpec).keep)
      [rowLeapA, rowLeapB] = [rowLeapA, rowLeapB] := by
  show List.filter (leapKeep 100 ⟨330, 395, 50/100, 80/100, 2/100, 500, 5/100, 365⟩) _ = _
  have hA : leapKeep 100 ⟨330, 395, 50/100, 80/100, 2/100, 500, 5/100, 365⟩ rowLeapA
      = true := by
    unfold leapKeep rowLeapA strike_in_range
    norm_num [abs_of_pos]
  have hB : leapKeep 100 ⟨330, 395, 50/100, 80/100, 2/100, 500, 5/100, 365⟩ rowLeapB
      = true := by
    unfold leapKeep rowLeapB strike_in_range
    norm_num [abs_of_pos]
  simp [List.filter, hA, hB]

theorem c7_leap_key_lt :
    key4Lt (leapKey 100 true ⟨330, 395, 50/100, 80/100, 2/100, 500, 5/100, 365⟩ rowLeapB)
      (leapKey 100 true ⟨330, 395, 50/100, 80/100, 2/100, 500, 5/100, 365⟩ rowLeapA) := by
  refine Or.inl ?_
  unfold leapKey rowLeapA rowLeapB
  norm_num

theorem c7_pick_eval :
    pickBestOption [rowLeapA, rowLeapB] 100 .leap true = some (rowLeapB, 0) := by
  unfold pickBestOption
  rw [if_neg (by norm_num : ¬ (100 : ℚ) ≤ 0),
    if_neg (by simp : ¬ ([rowLeapA, rowLeapB] : List OptionRow) = [])]
  rw [pickLadder_eq_some [rowLeapA, rowLeapB] (specsOf .leap 100 true) 0 0
    (by rw [specsOf_length]; norm_num)
    (fun j hj => absurd hj (Nat.not_lt_zero j))
    (by rw [c7_leap_filter]; simp)]
  rw [c7_leap_filter]
  have hkey : ((specsOf TradeType.leap 100 true).getD 0 dummySpec).key =
      leapKey 100 true ⟨330, 395, 50/100, 80/100, 2/100, 500, 5/100, 365⟩ := rfl
  unfold specBest minBy4
  rw [hkey, if_pos c7_leap_key_lt]
  rfl

/-- Modelled from the ranking sentence of the spec, for comparison with the
code: moneyness with a fixed plus or minus 2 percent target as the primary
key, DTE distance from 365 only secondary, then spread, then open interest. -/
def claimedMoneyness (px strike : ℚ) (isCall : Bool) (band : ℚ) : ℚ :=
  let m := (strike - px) / px
  let target := if isCall then (2/100 : ℚ) else -(2/100)
  |m - target| + (if |m| ≤ band then 0 else 1/2 + |m|)

/-- Modelled from the spec: the ranking key the claim describes for leap. -/
def claimedLeapKey (px : ℚ) (pc : Bool) (band : ℚ) (r : OptionRow) : Key4 :=
  (claimedMoneyness px r.strike pc band, ((|r.dte.getD 0 - 365| : ℤ) : ℚ),
   pyOrOptQ r.spread 9000000000, -((r.open_interest.getD 0 : ℚ)))

/-- Claim C7 counterexample: for leap the code ranks DTE distance from 365
first and moneyness only second, the reverse of the claimed order. On two
surviving level-0 candidates the selector returns rowLeapB although rowLeapA
is strictly smaller in the claimed lexicographic order (moneyness primary),
so the returned candidate is not minimal in the claimed order. -/
theorem c7_counterexample :
    pickBestOption [rowLeapA, rowLeapB] 100 .leap true = some (rowLeapB, 0) ∧
    rowLeapA ∈ levelFiltered .leap 100 true [rowLeapA, rowLeapB] 0 ∧
    key4Lt (claimedLeapKey 100 true (2/100) rowLeapA)
      (claimedLeapKey 100 true (2/100) rowLeapB) := by
  refine ⟨c7_pick_eval, ?_, ?_⟩
  · unfold levelFiltered
    rw [c7_leap_filter]
    simp
  · refine Or.inl ?_
    unfold claimedLeapKey claimedMoneyness rowLeapA rowLeapB
    norm_num [abs_of_pos]

/-- Claim C7 amended: within the selected level the returned candidate is the
first minimum of the lexicographic key the code actually sorts by: for scalp
distance of absolute delta from 0.50, then DTE, then spread, then negated
open interest; for swing the moneyness score with the level band as both
target and penalty bound, then DTE, then spread, then negated open interest;
for leap DTE distance from the 365-day target first, then moneyness, then
spread, then negated open interest. -/
theorem c7_amended (tt : TradeType) (rows : List OptionRow) (px : ℚ) (pc : Bool)
    (r : OptionRow) (k : ℕ)
    (hpick : pickBestOption rows px tt pc = some (r, k)) :
    r ∈ levelFiltered tt px pc rows k ∧
    ∀ x ∈ levelFiltered tt px pc rows k,
      key4Le (levelKey tt px pc k r) (levelKey tt px pc k x) := by
  unfold pickBestOption at hpick
  by_cases h1 : px ≤ 0
  · rw [if_pos h1] at hpick
    cases hpick
  rw [if_neg h1] at hpick
  by_cases h2 : rows = []
  · rw [if_pos h2] at hpick
    cases hpick
  rw [if_neg h2] at hpick
  obtain ⟨k2, hk2, hm, hprev, hnem, hr⟩ :=
    pickLadder_some_inv rows (specsOf tt px pc) 0 r k hpick
  have hkk : k2 = k := by omega
  subst hkk
  cases hfil : rows.filter ((specsOf tt px pc).getD k2 dummySpec).keep with
  | nil => exact absurd hfil hnem
  | cons a as =>
    rw [hfil] at hr
    have hr2 : r = minBy4 ((specsOf tt px pc).getD k2 dummySpec).key a as := hr
    constructor
    · unfold levelFiltered
      rw [hfil, hr2]
      rcases minBy4_choice ((specsOf tt px pc).getD k2 dummySpec).key a as with h | h
      · rw [h]
        exact List.mem_cons_self a as
      · exact List.mem_cons_of_mem a h
    · intro x hx
      unfold levelFiltered at hx
      rw [hfil] at hx
      rw [hr2]
      unfold levelKey
      exact minBy4_min ((specsOf tt px pc).getD k2 dummySpec).key a as x
        (List.mem_cons.mp hx)

theorem c7_amended_witness :
    rowLeapB ∈ levelFiltered .leap 100 true [rowLeapA, rowLeapB] 0 ∧
    key4Le (levelKey .leap 100 true 0 rowLeapB) (levelKey .leap 100 true 0 rowLeapA) := by
  have h := c7_amended .leap [rowLeapA, rowLeapB] 100 true rowLeapB 0 c7_pick_eval
  refine ⟨h.1, ?_⟩
  apply h.2
  unfold levelFiltered
  rw [c7_leap_filter]
  simp

/-- Claim C8 amended: before committing, the tracker re-reads the position and
aborts only when the row is no longer open; it does not re-validate
tp_hit_level or sl_hit, so a concurrent advance that leaves the row open does
not prevent firing, and the exit is then applied to the re-read state. Stated
for the take-profit branch; the trailing and stop-loss branches share the
same guard. -/
theorem c8_amended (pos : PositionState) (data : SignalData) (c : ℚ)
    (r : PositionState) (u s : Bool) (n : ℕ)
    (hnt : ¬ (trailingActive pos data = true ∧
      c ≤ effHighest pos c * (1 - toFloat data.trailing_stop_per / 100)))
    (hnsl : ¬ (0 < toFloat data.sl_price ∧ c ≤ toFloat data.sl_price))
    (htp : 0 < toFloat (data.tpPrice (pos.tp_hit_level + 1)) ∧
      toFloat (data.tpPrice (pos.tp_hit_level + 1)) ≤ c) :
    (r.status ≠ PStatus.opened →
      autoTickGen pos data (some c) (fun _ => r) u s n = (TickAction.tpAborted, r)) ∧
    (r.status = PStatus.opened →
      (autoTickGen pos data (some c) (fun _ => r) u s n).2 =
        (applyPositionExit r .tp data u s n).state ∧
      (autoTickGen pos data (some c) (fun _ => r) u s n).1 =
        (if u = true ∧ ¬ s = true then TickAction.tpNotifyFailed
         else TickAction.tpFired (pos.tp_hit_level + 1))) :=
  tickGen_tp_guard pos data c r u s n hnt hnsl htp

theorem c8_amended_witness :
    autoTickGen posC1 dataC1 (some 121) (fun _ => posClosed) false true 9 =
      (TickAction.tpAborted, posClosed) := by
  have h := c8_amended posC1 dataC1 121 posClosed false true 9
    (by
      intro hcon
      rw [show trailingActive posC1 dataC1 = false from rfl] at hcon
      exact absurd hcon.1 (by simp))
    (by
      intro hcon
      rw [show toFloat dataC1.sl_price = 0 from rfl] at hcon
      exact absurd hcon.1 (lt_irrefl 0))
    (by
      rw [show toFloat (dataC1.tpPrice (posC1.tp_hit_level + 1)) = 120 from rfl]
      norm_num)
  exact h.1 (by decide)
